import Mathlib

/-!
# Verification of the trade-automation core

A shallow embedding of the core components of the repository
(`card_selector.py`, `trade.py`, `owners_parser.py`, `rate_limiter.py`,
`daily_stats.py`, `inventory.py`) together with proofs settling the
frozen claims about them.

Modelling conventions:
* Python ints that are always non-negative in the program are `Nat`;
  quantities that can go negative (`donations_left`) are `Int`;
  wall-clock times in the rate limiter are `ℚ` (floats are modelled by
  exact rationals).
* Python dicts keyed by id are association lists / lists of records in
  insertion order; Python sets are lists with membership tests.
* `random.shuffle` / `random.choice` are modelled by quantifying over
  the input order resp. by an explicit index parameter, so theorems
  hold for every outcome of the randomness.
* Remote I/O is an explicit parameter (an outcome value or an oracle
  function), so fallible remote calls return `Option`/`Bool` exactly as
  the Python code converts them.
-/

namespace Sredizeme

/-! ## card_selector.py -/

/-- `config.MAX_WANTERS_FOR_TRADE` (= 70). -/
def MAX_WANTERS_FOR_TRADE : Nat := 70

/-- `card_selector.MAX_WANTERS_ALLOWED = MAX_WANTERS_FOR_TRADE`. -/
def MAX_WANTERS_ALLOWED : Nat := MAX_WANTERS_FOR_TRADE

/-- `card_selector.LOW_WANTERS_THRESHOLD` (= 5). -/
def LOW_WANTERS_THRESHOLD : Nat := 5

/-- `config.MAX_CARD_SELECTION_ATTEMPTS` (= 50). -/
def MAX_CARD_SELECTION_ATTEMPTS : Nat := 50

/-- `card_selector.normalize_wanters`: demand values `<= LOW_WANTERS_THRESHOLD`
collapse to `0`, larger values are returned unchanged. -/
def normalize_wanters (wanters_count : Nat) : Nat :=
  if wanters_count ≤ LOW_WANTERS_THRESHOLD then 0 else wanters_count

/-- A raw card dict as stored in `inventory.json`, after the field
coalescing performed by `utils.extract_card_data` (direct field or nested
`card` object).  `card_id = 0` and `rank = ""` model the falsy values that
make `extract_card_data` return `None`. -/
structure RawCard where
  card_id : Nat
  name : String
  rank : String
  instance_id : Nat
  deriving DecidableEq, Repr

/-- `utils.extract_card_data`: fails (returns `none`) when `card_id` or
`rank` is falsy, otherwise yields the normalized record. -/
def extract_card_data (card : RawCard) : Option RawCard :=
  if card.card_id = 0 ∨ card.rank = "" then none else some card

/-- An entry of the persistent parse cache `parsed_inventory.json`.
The `cached_at`/`timestamp` wall-clock fields are abstracted into the
boolean `cacheValid`, the value of
`utils.is_cache_valid(cached_at, CACHE_VALIDITY_HOURS)` at the moment the
selector runs. -/
structure ParsedCard where
  card_id : Nat
  name : String
  rank : String
  wanters_count : Nat
  instance_id : Nat
  cacheValid : Bool
  deriving DecidableEq, Repr

/-- The parse cache: a Python dict keyed by `str(card_id)`, in insertion
order. -/
abbrev ParsedInv := List ParsedCard

/-- Dict lookup `parsed_inventory[str(card_id)]`. -/
def lookupParsed (inv : ParsedInv) (card_id : Nat) : Option ParsedCard :=
  inv.find? (fun c => c.card_id = card_id)

/-- Dict assignment `parsed_inventory[str(card_id)] = card`: replaces the
entry with the same key, else appends. -/
def storeParsed (inv : ParsedInv) (card : ParsedCard) : ParsedInv :=
  if (inv.find? (fun c => c.card_id = card.card_id)).isSome then
    inv.map (fun c => if c.card_id = card.card_id then card else c)
  else
    inv ++ [card]

/-- The two persisted stores managed by `InventoryManager`
(`inventory.json` and `parsed_inventory.json`). -/
structure Stores where
  inventory : List RawCard
  parsedInv : ParsedInv
  deriving DecidableEq, Repr

/-- `InventoryManager.remove_card`: reloads the inventory file, removes the
first occurrence equal to `card` and saves; `ValueError` (card absent)
yields `False` and leaves the file unchanged. -/
def remove_card (inv : List RawCard) (card : RawCard) : Bool × List RawCard :=
  if card ∈ inv then (true, inv.erase card) else (false, inv)

/-- `CardSelector.is_card_available`: not locked and not used. -/
def is_card_available (locked used : List Nat) (instance_id : Nat) : Bool :=
  ¬ (instance_id ∈ locked) ∧ ¬ (instance_id ∈ used)

/-- `CardSelector.parse_and_cache_card`.  `wants` is the external
`parsers.count_wants` oracle (negative = error).  Returns the selected
parse result (if any) and the updated parse cache (the cache-hit branch
mutates the dict entry's `instance_id` in place; the miss branch inserts
and saves a fresh entry). -/
def parse_and_cache_card (wants : Nat → Int) (locked used : List Nat)
    (card : RawCard) (parsedInv : ParsedInv) :
    Option ParsedCard × ParsedInv :=
  match extract_card_data card with
  | none => (none, parsedInv)
  | some cd =>
    if ¬ is_card_available locked used cd.instance_id then
      (none, parsedInv)
    else
      match lookupParsed parsedInv cd.card_id with
      | some cached =>
        if cached.cacheValid then
          let cached' := { cached with instance_id := cd.instance_id }
          (some cached', storeParsed parsedInv cached')
        else
          parseFresh wants cd parsedInv
      | none => parseFresh wants cd parsedInv
where
  /-- The cache-miss tail of `parse_and_cache_card`: query `count_wants`,
  reject errors and over-demanded cards, otherwise build and store the
  fresh entry. -/
  parseFresh (wants : Nat → Int) (cd : RawCard) (parsedInv : ParsedInv) :
      Option ParsedCard × ParsedInv :=
    let w := wants cd.card_id
    if w < 0 then (none, parsedInv)
    else if w > (MAX_WANTERS_ALLOWED : Int) then (none, parsedInv)
    else
      let pc : ParsedCard :=
        { card_id := cd.card_id, name := cd.name, rank := cd.rank,
          wanters_count := w.toNat, instance_id := cd.instance_id,
          cacheValid := true }
      (some pc, storeParsed parsedInv pc)

/-- `CardSelector.filter_cards_by_rank`. -/
def filter_cards_by_rank (locked used : List Nat)
    (inventory : List RawCard) (target_rank : String) : List RawCard :=
  inventory.filter (fun card =>
    match extract_card_data card with
    | some cd => cd.rank = target_rank ∧ is_card_available locked used cd.instance_id
    | none => false)

/-- One examined-card record of the unparsed scan (for frame-effect
reasoning): the raw card that was popped and given to
`InventoryManager.remove_card`. -/
structure UnparsedResult where
  selected : Option ParsedCard
  inventory : List RawCard
  parsedInv : ParsedInv
  examined : List RawCard
  deriving DecidableEq, Repr

/-- Second phase of `CardSelector.select_from_unparsed`: parse every
remaining card (each first removed from the persisted inventory file),
returning the first whose normalized demand reaches the normalized
target. -/
def selectUnparsedAll (wants : Nat → Int) (locked used : List Nat)
    (normalized_target : Nat) :
    List RawCard → List RawCard → ParsedInv → UnparsedResult
  | [], inv, parsedInv => ⟨none, inv, parsedInv, []⟩
  | card :: rest, inv, parsedInv =>
    let inv' := (remove_card inv card).2
    let (pc?, parsedInv') := parse_and_cache_card wants locked used card parsedInv
    match pc? with
    | some pc =>
      if normalize_wanters pc.wanters_count ≥ normalized_target then
        ⟨some pc, inv', parsedInv', [card]⟩
      else
        let r := selectUnparsedAll wants locked used normalized_target rest inv' parsedInv'
        { r with examined := card :: r.examined }
    | none =>
      let r := selectUnparsedAll wants locked used normalized_target rest inv' parsedInv'
      { r with examined := card :: r.examined }

/-- First phase of `CardSelector.select_from_unparsed`: up to
`max_attempts` cards are examined; afterwards control falls through to
`selectUnparsedAll` on the remainder. -/
def selectUnparsedBudget (wants : Nat → Int) (locked used : List Nat)
    (normalized_target : Nat) :
    Nat → List RawCard → List RawCard → ParsedInv → UnparsedResult
  | 0, cards, inv, parsedInv =>
    selectUnparsedAll wants locked used normalized_target cards inv parsedInv
  | _ + 1, [], inv, parsedInv => ⟨none, inv, parsedInv, []⟩
  | budget + 1, card :: rest, inv, parsedInv =>
    let inv' := (remove_card inv card).2
    let (pc?, parsedInv') := parse_and_cache_card wants locked used card parsedInv
    match pc? with
    | some pc =>
      if normalize_wanters pc.wanters_count ≥ normalized_target then
        ⟨some pc, inv', parsedInv', [card]⟩
      else
        let r := selectUnparsedBudget wants locked used normalized_target budget rest inv' parsedInv'
        { r with examined := card :: r.examined }
    | none =>
      let r := selectUnparsedBudget wants locked used normalized_target budget rest inv' parsedInv'
      { r with examined := card :: r.examined }

/-- `CardSelector.select_from_unparsed`.  `available_cards` is the list in
the order left by `random.shuffle` (theorems quantify over it); the
persisted inventory file `inv` is mutated through
`InventoryManager.remove_card` for every examined card.  Note the
function receives no exclusion set. -/
def select_from_unparsed (wants : Nat → Int) (locked used : List Nat)
    (available_cards : List RawCard) (target_wanters : Nat)
    (inv : List RawCard) (parsedInv : ParsedInv)
    (max_attempts : Nat := MAX_CARD_SELECTION_ATTEMPTS) : UnparsedResult :=
  selectUnparsedBudget wants locked used (normalize_wanters target_wanters)
    max_attempts available_cards inv parsedInv

/-- Head of Python's stable `sort(key=f, reverse=True)`: the earliest
element attaining the maximal key. -/
def firstMaxBy (f : ParsedCard → Nat) : List ParsedCard → Option ParsedCard
  | [] => none
  | x :: xs => some (xs.foldl (fun best a => if f a > f best then a else best) x)

/-- The eligibility filter of `CardSelector.select_from_parsed`: rank
match, not excluded, available, and within the demand ceiling. -/
def parsedEligible (locked used : List Nat) (exclude_instances : List Nat)
    (target_rank : String) (card : ParsedCard) : Bool :=
  card.rank = target_rank ∧
  ¬ (card.instance_id ∈ exclude_instances) ∧
  is_card_available locked used card.instance_id ∧
  ¬ (card.wanters_count > MAX_WANTERS_ALLOWED)

/-- `CardSelector.select_from_parsed`.  `rngIdx` models `random.choice`
over the priority-1 bucket; the priority-2 bucket is resolved by the
stable descending sort on normalized demand (its head is `firstMaxBy`). -/
def select_from_parsed (locked used : List Nat) (parsedInv : ParsedInv)
    (target_rank : String) (target_wanters : Nat)
    (exclude_instances : List Nat) (rngIdx : Nat) : Option ParsedCard :=
  let normalized_target := normalize_wanters target_wanters
  let eligible := parsedInv.filter (parsedEligible locked used exclude_instances target_rank)
  let suitable_greater_equal :=
    eligible.filter (fun c => normalize_wanters c.wanters_count ≥ normalized_target)
  let suitable_less :=
    eligible.filter (fun c => ¬ (normalize_wanters c.wanters_count ≥ normalized_target))
  match suitable_greater_equal[rngIdx % suitable_greater_equal.length]? with
  | some c => some c
  | none => firstMaxBy (fun c => normalize_wanters c.wanters_count) suitable_less

/-- `CardSelector.select_best_card`: first the unparsed scan (no exclusion
filter is handed down), then the parsed scan with the exclusion filter.
Returns the selection together with the final persisted stores. -/
def select_best_card (wants : Nat → Int) (locked used : List Nat)
    (stores : Stores) (target_rank : String) (target_wanters : Nat)
    (exclude_instances : List Nat) (rngIdx : Nat) :
    Option ParsedCard × Stores :=
  if stores.inventory = [] ∧ stores.parsedInv = [] then (none, stores)
  else
    let available_cards := filter_cards_by_rank locked used stores.inventory target_rank
    if available_cards ≠ [] then
      let r := select_from_unparsed wants locked used available_cards
        target_wanters stores.inventory stores.parsedInv
      match r.selected with
      | some pc => (some pc, ⟨r.inventory, r.parsedInv⟩)
      | none =>
        (select_from_parsed locked used r.parsedInv target_rank target_wanters
          exclude_instances rngIdx, ⟨r.inventory, r.parsedInv⟩)
    else
      (select_from_parsed locked used stores.parsedInv target_rank target_wanters
        exclude_instances rngIdx, stores)

/-! ## trade.py — TradeHistoryMonitor -/

/-- The trade statuses produced by `TradeHistoryMonitor._parse_trade_status`
(the strings `'pending'`, `'completed'`, `'cancelled'`). -/
inductive TStatus
  | pending
  | completed
  | cancelled
  deriving DecidableEq, Repr

/-- A record of `TradeHistoryMonitor.fetch_recent_trades` (only trades with
non-empty `lost_cards` are reported). -/
structure TradeRec where
  trade_id : Nat
  status : TStatus
  lost_cards : List Nat
  gained_cards : List Nat
  deriving DecidableEq, Repr

/-- The monitor's mutable state: the `trade_statuses` dict, the
`traded_away_cards` set, and the persisted inventory file it repairs. -/
structure HistState where
  trade_statuses : List (Nat × TStatus)
  traded_away : List Nat
  inventory : List RawCard
  deriving DecidableEq, Repr

/-- Dict lookup `self.trade_statuses.get(trade_id)`. -/
def lookupStatus : List (Nat × TStatus) → Nat → Option TStatus
  | [], _ => none
  | p :: rest, tid => if p.1 = tid then some p.2 else lookupStatus rest tid

/-- Dict assignment `self.trade_statuses[trade_id] = status`. -/
def setStatus : List (Nat × TStatus) → Nat → TStatus → List (Nat × TStatus)
  | [], tid, st => [(tid, st)]
  | p :: rest, tid, st =>
    if p.1 = tid then (tid, st) :: rest else p :: setStatus rest tid st

/-- `TradeHistoryMonitor._remove_card_from_inventory`: empty or missing
yields `False`; otherwise the first card whose (possibly nested) id equals
`card_id` is removed and the file saved. -/
def removeCardFromInventory (inv : List RawCard) (card_id : Nat) :
    Bool × List RawCard :=
  if inv = [] then (false, inv)
  else
    match inv.find? (fun c => c.card_id = card_id) with
    | none => (false, inv)
    | some c => (true, inv.erase c)

/-- The lost-cards loop of the `None -> completed` branch of
`check_and_remove_traded_cards`: each lost card not yet in the traded-away
set is removed from inventory once; successful removals are recorded in
the traded-away set and counted. -/
def processLostCompleted :
    List Nat → List RawCard → List Nat → Nat → List RawCard × List Nat × Nat
  | [], inv, ta, rem => (inv, ta, rem)
  | c :: rest, inv, ta, rem =>
    if c ∈ ta then processLostCompleted rest inv ta rem
    else
      let (ok, inv') := removeCardFromInventory inv c
      if ok then processLostCompleted rest inv' (ta ++ [c]) (rem + 1)
      else processLostCompleted rest inv' ta rem

/-- The lost-cards loop of the `completed -> cancelled` branch of
`check_and_remove_traded_cards`: each lost card present in the traded-away
set is discarded from it and counted as restored.  (No inventory
mutation occurs in this branch.) -/
def processLostCancelled : List Nat → List Nat → Nat → List Nat × Nat
  | [], ta, res => (ta, res)
  | c :: rest, ta, res =>
    if c ∈ ta then processLostCancelled rest (ta.erase c) (res + 1)
    else processLostCancelled rest ta res

/-- The per-trade body of `check_and_remove_traded_cards`: the observed
status-transition table.  Returns the new state and the (removed,
restored) counts contributed by this trade. -/
def processTrade (s : HistState) (tr : TradeRec) : HistState × Nat × Nat :=
  let prev := lookupStatus s.trade_statuses tr.trade_id
  if prev = none ∧ tr.status = TStatus.completed then
    let (inv', ta', rem) := processLostCompleted tr.lost_cards s.inventory s.traded_away 0
    (⟨setStatus s.trade_statuses tr.trade_id TStatus.completed, ta', inv'⟩, rem, 0)
  else if prev = some TStatus.completed ∧ tr.status = TStatus.cancelled then
    let (ta', res) := processLostCancelled tr.lost_cards s.traded_away 0
    (⟨setStatus s.trade_statuses tr.trade_id TStatus.cancelled, ta', s.inventory⟩, 0, res)
  else if prev ≠ some tr.status then
    (⟨setStatus s.trade_statuses tr.trade_id tr.status, s.traded_away, s.inventory⟩, 0, 0)
  else
    (s, 0, 0)

/-- `TradeHistoryMonitor.check_and_remove_traded_cards`, applied to the
trades fetched in this pass; returns the final state and `removed_count`
(the function's return value). -/
def check_and_remove_traded_cards (s : HistState) (trades : List TradeRec) :
    HistState × Nat :=
  if trades = [] then (s, 0)
  else
    let r := trades.foldl
      (fun acc tr =>
        let (s', rem, _) := processTrade acc.1 tr
        (s', acc.2 + rem))
      (s, 0)
    r

/-! ## trade.py — TradeManager.create_trade_direct_api -/

/-- The observable parts of an HTTP response that
`TradeManager._is_success_response` and `create_trade_direct_api`
inspect.  String/JSON scans are abstracted into boolean observations:
`locationHasTradesPath` is `"/trades/" in headers["Location"]`,
`jsonBodyHasSuccessWords` / `textHasSuccessWords` are the substring scans
for the success words, `jsonTradeWithId` is
`isinstance(data.get("trade"), dict) and data["trade"].get("id")`. -/
structure HttpResponse where
  status_code : Nat
  locationHasTradesPath : Bool
  jsonParses : Bool
  jsonIsDict : Bool
  jsonSuccessField : Bool
  jsonOkField : Bool
  jsonTradeWithId : Bool
  jsonBodyHasSuccessWords : Bool
  textHasSuccessWords : Bool
  deriving DecidableEq, Repr

/-- `TradeManager._is_success_response`. -/
def is_success_response (r : HttpResponse) : Bool :=
  if r.status_code = 200 then true
  else if (r.status_code = 301 ∨ r.status_code = 302) ∧ r.locationHasTradesPath then true
  else if r.jsonParses ∧ r.jsonIsDict ∧
      (r.jsonSuccessField ∨ r.jsonOkField ∨ r.jsonTradeWithId ∨ r.jsonBodyHasSuccessWords) then
    true
  else if r.textHasSuccessWords then true
  else false

/-- The outcome of the `session.post` call in `create_trade_direct_api`:
either a `requests.RequestException` (caught and turned into `False`) or
a response. -/
inductive ApiOutcome
  | netError
  | resp (r : HttpResponse)
  deriving DecidableEq, Repr

/-- A confirmed success: a response arrived, it is neither the 429
rate-limit signal nor the 422 "already in a trade" soft failure, and
`_is_success_response` accepts it. -/
def confirmedSuccess : ApiOutcome → Bool
  | ApiOutcome.netError => false
  | ApiOutcome.resp r =>
    ¬ (r.status_code = 429) ∧ ¬ (r.status_code = 422) ∧ is_success_response r

/-- `TradeManager.create_trade_direct_api`, as a function of the
locked-card set and the remote-call outcome.  Returns the boolean result
and the new locked-card set.  (The 429 branch additionally pauses the
rate limiter; that is modelled separately with the limiter.) -/
def create_trade_direct_api (locked : List Nat) (my_instance_id : Nat)
    (outcome : ApiOutcome) : Bool × List Nat :=
  if my_instance_id ∈ locked then (false, locked)
  else
    match outcome with
    | ApiOutcome.netError => (false, locked)
    | ApiOutcome.resp r =>
      if r.status_code = 429 then (false, locked)
      else if r.status_code = 422 then (false, locked)
      else if is_success_response r then (true, my_instance_id :: locked)
      else (false, locked)

/-! ## owners_parser.py — OwnersProcessor.process_owner_with_retry -/

/-- `OwnersProcessor.MAX_RETRY_ATTEMPTS` (= 3). -/
def MAX_RETRY_ATTEMPTS : Nat := 3

/-- The fields of a selected card that `process_owner_with_retry`
reads (`name`, `wanters_count`, `instance_id`; `instance_id = 0` models a
falsy/missing instance id). -/
structure SelCard where
  name : String
  wanters_count : Nat
  instance_id : Nat
  deriving DecidableEq, Repr

/-- One invocation of the trade-send function: the exclusion set passed
to the selection that produced the card, the card sent, and the send
result. -/
structure AttemptRec where
  excludeUsed : List Nat
  card : SelCard
  sendOk : Bool
  deriving DecidableEq, Repr

/-- The outcome of `process_owner_with_retry`: the returned tuple
`(success, interrupted)`, the final `failed_attempts_set`, and the trace
of trade-send invocations. -/
structure RetryOutcome where
  success : Bool
  interrupted : Bool
  failedOut : List Nat
  trace : List AttemptRec
  deriving DecidableEq, Repr

/-- The attempt loop of `process_owner_with_retry`.  `chg` is the shared
`monitor_obj.card_changed` flag read at the numbered check points; the
selection oracle `selectF` may depend on the attempt number (the stores
mutate between attempts) and on the exclusion set; `sendF` is the
trade-send collaborator; `sendPresent` models `self.send_trade_func`
being set.  Each send is recorded in the trace; on failure the card's
instance id is added to both the cycle's failed set and the local
exclusion set before the next attempt. -/
def retryGo (chg : Nat → Bool) (selectF : Nat → List Nat → Option SelCard)
    (sendF : Nat → SelCard → Bool) (sendPresent : Bool) :
    Nat → Nat → Nat → List Nat → List Nat → RetryOutcome
  | 0, _, _, _, failed => ⟨false, false, failed, []⟩
  | fuel + 1, attempt, ck, exclude, failed =>
    if chg ck then ⟨false, true, failed, []⟩
    else
      match selectF attempt exclude with
      | none => ⟨false, false, failed, []⟩
      | some card =>
        if ¬ sendPresent ∨ card.instance_id = 0 then ⟨false, false, failed, []⟩
        else if chg (ck + 1) then ⟨false, true, failed, []⟩
        else if sendF attempt card then
          ⟨true, false, [], [⟨exclude, card, true⟩]⟩
        else
          let r := retryGo chg selectF sendF sendPresent fuel (attempt + 1) (ck + 2)
            (exclude.insert card.instance_id) (failed.insert card.instance_id)
          ⟨r.success, r.interrupted, r.failedOut, ⟨exclude, card, false⟩ :: r.trace⟩

/-- `OwnersProcessor.process_owner_with_retry`: blacklist check, initial
card-changed check, then the bounded attempt loop starting from a copy of
the cycle's `failed_attempts_set` as the exclusion set. -/
def process_owner_with_retry (blacklisted : Bool) (chg : Nat → Bool)
    (selectF : Nat → List Nat → Option SelCard) (sendF : Nat → SelCard → Bool)
    (sendPresent : Bool) (failed : List Nat) : RetryOutcome :=
  if blacklisted then ⟨false, false, failed, []⟩
  else if chg 0 then ⟨false, true, failed, []⟩
  else retryGo chg selectF sendF sendPresent MAX_RETRY_ATTEMPTS 1 1 failed failed

/-! ## daily_stats.py — DailyStatsManager -/

/-- `config.MAX_DAILY_DONATIONS` (= 50). -/
def MAX_DAILY_DONATIONS : Nat := 50

/-- `config.MAX_DAILY_REPLACEMENTS` (= 10). -/
def MAX_DAILY_REPLACEMENTS : Nat := 10

/-- `config.TIMEZONE_OFFSET` (= 3, Moscow time UTC+3). -/
def TIMEZONE_OFFSET : Nat := 3

/-- `DailyStatsManager._seconds_until_reset`: seconds from `utcNow`
(seconds since a midnight-aligned UTC epoch) to the next 00:00 in the
fixed UTC+`TIMEZONE_OFFSET` zone.  The code shifts the clock by the
offset, floors to the day, adds one day and subtracts. -/
def seconds_until_reset (utcNow : Nat) : Nat :=
  86400 - (utcNow + TIMEZONE_OFFSET * 3600) % 86400

/-- The quota snapshot dict built by `fetch_stats_from_page` /
`get_stats` (the derived `reset_time_formatted` string is a pure
rendering of `time_until_reset` and is omitted). -/
structure Stats where
  donations_used : Nat
  donations_max : Nat
  replacements_used : Nat
  replacements_max : Nat
  donations_left : Int
  replacements_left : Int
  time_until_reset : Nat
  deriving DecidableEq, Repr

/-- The outcome of the remote statistics fetch: `fail` models a non-200
status, a network error or a parse exception (all the paths on which
`fetch_stats_from_page` returns `None`); `ok` carries the two optional
parsed `used/max` pairs (a section that fails to parse falls back to
`0 / configured maximum`). -/
inductive FetchOutcome
  | fail
  | ok (repl : Option (Nat × Nat)) (don : Option (Nat × Nat))
  deriving DecidableEq, Repr

/-- `DailyStatsManager.fetch_stats_from_page`. -/
def fetch_stats_from_page (o : FetchOutcome) (utcNow : Nat) : Option Stats :=
  match o with
  | FetchOutcome.fail => none
  | FetchOutcome.ok repl don =>
    let ru := (repl.getD (0, MAX_DAILY_REPLACEMENTS)).1
    let rm := (repl.getD (0, MAX_DAILY_REPLACEMENTS)).2
    let du := (don.getD (0, MAX_DAILY_DONATIONS)).1
    let dm := (don.getD (0, MAX_DAILY_DONATIONS)).2
    some { donations_used := du, donations_max := dm,
           replacements_used := ru, replacements_max := rm,
           donations_left := (dm : Int) - du,
           replacements_left := (rm : Int) - ru,
           time_until_reset := seconds_until_reset utcNow }

/-- The permissive snapshot `get_stats` returns when the fetch failed:
full quota remaining, with the reset countdown still computed from the
local clock. -/
def permissive_stats (utcNow : Nat) : Stats :=
  { donations_used := 0, donations_max := MAX_DAILY_DONATIONS,
    replacements_used := 0, replacements_max := MAX_DAILY_REPLACEMENTS,
    donations_left := (MAX_DAILY_DONATIONS : Int),
    replacements_left := (MAX_DAILY_REPLACEMENTS : Int),
    time_until_reset := seconds_until_reset utcNow }

/-- `DailyStatsManager.get_stats`: a cache hit without forced refresh
only refreshes the countdown fields; otherwise the page is fetched and a
failed fetch yields the permissive snapshot. -/
def get_stats (cached : Option Stats) (force_refresh : Bool)
    (outcome : FetchOutcome) (utcNow : Nat) : Stats :=
  match cached, force_refresh with
  | some c, false => { c with time_until_reset := seconds_until_reset utcNow }
  | _, _ =>
    match fetch_stats_from_page outcome utcNow with
    | none => permissive_stats utcNow
    | some s => s

/-! ## rate_limiter.py — RateLimiter

Wall-clock instants are exact rationals.  A call of `wait_and_record`
receives the reading of `time.time()` at its start; `time.sleep`
advances the clock exactly to the sleep target (the adversarially tight
timing), and the timestamp recorded by `record_request` is the clock
value after the sleeps.  Between two sequential calls the clock strictly
advances (`validTimes`). -/

/-- `config.RATE_LIMIT_PER_MINUTE` (= 66). -/
def RATE_LIMIT_PER_MINUTE : Nat := 66

/-- `config.RATE_LIMIT_WINDOW` (= 60 seconds). -/
def RATE_LIMIT_WINDOW : Nat := 60

/-- `config.RATE_LIMIT_RETRY_DELAY` (= 15 seconds). -/
def RATE_LIMIT_RETRY_DELAY : Nat := 15

/-- The `RateLimiter` object: configured limits, the time-ordered request
queue, and the 429 pause deadline. -/
structure RLState where
  max_requests : Nat
  window_seconds : ℚ
  requests : List ℚ
  paused_until : ℚ

/-- `RateLimiter._cleanup_old_requests`: pop entries strictly older than
`current_time - window` from the front of the queue. -/
def cleanup_old_requests (window current_time : ℚ) (requests : List ℚ) : List ℚ :=
  requests.dropWhile (fun r => r < current_time - window)

/-- `RateLimiter._wait_if_needed`: honour a pending 429 pause (sleeping
to `paused_until` and clearing it), prune the queue, and if the queue is
full sleep until the oldest entry exits the window (pruning again).
Returns the clock after the sleeps, the pruned queue, and the new pause
deadline. -/
def wait_if_needed (s : RLState) (now : ℚ) : ℚ × List ℚ × ℚ :=
  let t1 := if s.paused_until > now then s.paused_until else now
  let paused' := if s.paused_until > now then (0 : ℚ) else s.paused_until
  let reqs1 := cleanup_old_requests s.window_seconds t1 s.requests
  if reqs1.length ≥ s.max_requests then
    match reqs1 with
    | [] => (t1, reqs1, paused')
    | oldest :: _ =>
      if oldest + s.window_seconds - t1 > 0 then
        (oldest + s.window_seconds,
         cleanup_old_requests s.window_seconds (oldest + s.window_seconds) reqs1,
         paused')
      else (t1, reqs1, paused')
  else (t1, reqs1, paused')

/-- `RateLimiter.wait_and_record`: wait if needed, then record the
current time in the queue.  Returns the new state and the recorded
timestamp (= the clock when the call finishes). -/
def wait_and_record (s : RLState) (now : ℚ) : RLState × ℚ :=
  let r := wait_if_needed s now
  ({ s with requests := r.2.1 ++ [r.1], paused_until := r.2.2 }, r.1)

/-- A sequence of sequential `wait_and_record` calls at the given clock
readings; returns the final state and the recorded timestamps. -/
def runLimiter (s : RLState) : List ℚ → RLState × List ℚ
  | [] => (s, [])
  | now :: rest =>
    let r := wait_and_record s now
    let rr := runLimiter r.1 rest
    (rr.1, r.2 :: rr.2)

/-- The clock readings strictly advance across sequential calls: each
call starts strictly after the previous call finished (`lastFinish`). -/
def validTimes (s : RLState) (lastFinish : ℚ) : List ℚ → Bool
  | [] => true
  | now :: rest =>
    decide (lastFinish < now) &&
    validTimes (wait_and_record s now).1 (wait_and_record s now).2 rest

/-- The number of timestamps of `l` lying in the half-open rolling window
`(t - window, t]` — the timestamps whose age at instant `t` is less than
the window (an entry of age exactly `window` has just exited: the code's
full-queue sleep waits precisely until `oldest + window`). -/
def countWindow (window t : ℚ) (l : List ℚ) : Nat :=
  (l.filter (fun r => decide (t - window < r) && decide (r ≤ t))).length

/-- The inductive invariant of the limiter: the recorded history splits
into long-expired entries and the current queue; the queue holds at most
`max_requests + 1` entries, and when it overflows to `max_requests + 1`
its head has already exited the window; and every rolling window of the
history holds at most `max_requests` entries.  `f` is the clock when the
last call finished. -/
def RLInv (s : RLState) (hist : List ℚ) (f : ℚ) : Prop :=
  (∃ d, hist = d ++ s.requests ∧ ∀ r ∈ d, r < f - s.window_seconds) ∧
  s.requests.length ≤ s.max_requests + 1 ∧
  (s.requests.length = s.max_requests + 1 →
    ∃ h tl, s.requests = h :: tl ∧ h ≤ f - s.window_seconds) ∧
  (∀ t, countWindow s.window_seconds t hist ≤ s.max_requests)

end Sredizeme

namespace Sredizeme

/-! ## Helper lemmas about the selection primitives -/

/-- The running maximum of the stable-sort-head fold is an element of the
candidate list. -/
theorem foldlMax_mem (f : ParsedCard → Nat) (xs : List ParsedCard) (x : ParsedCard) :
    xs.foldl (fun best a => if f a > f best then a else best) x ∈ x :: xs := by
  induction xs generalizing x with
  | nil => simp
  | cons y ys ih =>
    simp only [List.foldl_cons]
    rcases List.mem_cons.mp (ih (if f y > f x then y else x)) with h | h
    · rw [h]
      by_cases hc : f y > f x <;> simp [hc]
    · simp [h]

/-- The running maximum of the fold dominates the start and every element
folded over. -/
theorem foldlMax_ge (f : ParsedCard → Nat) (xs : List ParsedCard) (x : ParsedCard) :
    f x ≤ f (xs.foldl (fun best a => if f a > f best then a else best) x) ∧
    ∀ a ∈ xs, f a ≤ f (xs.foldl (fun best a => if f a > f best then a else best) x) := by
  induction xs generalizing x with
  | nil => simp
  | cons y ys ih =>
    simp only [List.foldl_cons]
    obtain ⟨ih1, ih2⟩ := ih (if f y > f x then y else x)
    have hstart : f x ≤ f (if f y > f x then y else x) := by
      by_cases hc : f y > f x
      · simp only [if_pos hc]; omega
      · simp [hc]
    have hy : f y ≤ f (if f y > f x then y else x) := by
      by_cases hc : f y > f x
      · simp [hc]
      · simp only [if_neg hc]; omega
    refine ⟨le_trans hstart ih1, ?_⟩
    intro a ha
    rcases List.mem_cons.mp ha with rfl | ha
    · exact le_trans hy ih1
    · exact ih2 a ha

/-- `firstMaxBy` returns a member of its input list. -/
theorem firstMaxBy_mem {f : ParsedCard → Nat} {l : List ParsedCard}
    {c : ParsedCard} (h : firstMaxBy f l = some c) : c ∈ l := by
  cases l with
  | nil => simp [firstMaxBy] at h
  | cons x xs =>
    simp only [firstMaxBy, Option.some.injEq] at h
    rw [← h]
    exact foldlMax_mem f xs x

/-- `firstMaxBy` returns a maximiser of the key. -/
theorem firstMaxBy_max {f : ParsedCard → Nat} {l : List ParsedCard}
    {c : ParsedCard} (h : firstMaxBy f l = some c) : ∀ a ∈ l, f a ≤ f c := by
  cases l with
  | nil => simp [firstMaxBy] at h
  | cons x xs =>
    simp only [firstMaxBy, Option.some.injEq] at h
    intro a ha
    rcases List.mem_cons.mp ha with rfl | ha
    · rw [← h]; exact (foldlMax_ge f xs a).1
    · rw [← h]; exact (foldlMax_ge f xs x).2 a ha

/-- Whatever `select_from_parsed` returns passed the eligibility filter
(rank, exclusion, availability, demand ceiling). -/
theorem select_from_parsed_mem_eligible {locked used : List Nat}
    {parsedInv : ParsedInv} {target_rank : String} {target_wanters : Nat}
    {exclude_instances : List Nat} {rngIdx : Nat} {c : ParsedCard}
    (h : select_from_parsed locked used parsedInv target_rank target_wanters
          exclude_instances rngIdx = some c) :
    c ∈ parsedInv.filter (parsedEligible locked used exclude_instances target_rank) := by
  unfold select_from_parsed at h
  dsimp only at h
  split at h
  next c' heq =>
    cases h
    obtain ⟨hlt, hget⟩ := List.getElem?_eq_some_iff.mp heq
    have hm := hget ▸ List.getElem_mem hlt
    exact (List.mem_filter.mp hm).1
  next heq =>
    have hm := firstMaxBy_mem h
    exact (List.mem_filter.mp hm).1

/-! ## Helper lemmas about the unparsed scan (frame effects) -/

/-- `remove_card` never grows the persisted file: the result is a sublist
of the input. -/
theorem remove_card_sublist (inv : List RawCard) (card : RawCard) :
    (remove_card inv card).2.Sublist inv := by
  unfold remove_card
  split
  · exact List.erase_sublist card inv
  · exact List.Sublist.refl inv

/-- `remove_card` preserves freedom from duplicates. -/
theorem remove_card_nodup {inv : List RawCard} (card : RawCard)
    (h : inv.Nodup) : (remove_card inv card).2.Nodup :=
  (remove_card_sublist inv card).nodup h

/-- After `remove_card` on a duplicate-free file, the removed card is
either gone or was never there; in both cases no copy of it remains when
it was present at most once and got erased, and a card that was absent
stays absent. -/
theorem remove_card_not_mem {inv : List RawCard} {card : RawCard}
    (h : inv.Nodup) : card ∉ (remove_card inv card).2 := by
  unfold remove_card
  split
  · exact fun hm => ((List.Nodup.mem_erase_iff h).mp hm).1 rfl
  · next hne => simpa using hne

/-- The exhaustive phase of the unparsed scan only shrinks the persisted
inventory file. -/
theorem selectUnparsedAll_inventory_sublist (wants : Nat → Int)
    (locked used : List Nat) (nt : Nat) (cards : List RawCard)
    (inv : List RawCard) (parsedInv : ParsedInv) :
    (selectUnparsedAll wants locked used nt cards inv parsedInv).inventory.Sublist inv := by
  induction cards generalizing inv parsedInv with
  | nil => simp [selectUnparsedAll]
  | cons card rest ih =>
    rw [selectUnparsedAll]
    rcases hp : parse_and_cache_card wants locked used card parsedInv with ⟨pc?, p'⟩
    cases pc? with
    | none =>
      simpa [hp] using (ih (remove_card inv card).2 p').trans (remove_card_sublist inv card)
    | some pc =>
      by_cases hge : normalize_wanters pc.wanters_count ≥ nt
      · simpa [hp, hge] using remove_card_sublist inv card
      · simpa [hp, hge] using (ih (remove_card inv card).2 p').trans (remove_card_sublist inv card)

/-- In the exhaustive phase, on a duplicate-free file every examined card
is absent from the final persisted inventory. -/
theorem selectUnparsedAll_examined_removed (wants : Nat → Int)
    (locked used : List Nat) (nt : Nat) (cards : List RawCard)
    (inv : List RawCard) (parsedInv : ParsedInv) (hnd : inv.Nodup) :
    ∀ c ∈ (selectUnparsedAll wants locked used nt cards inv parsedInv).examined,
      c ∉ (selectUnparsedAll wants locked used nt cards inv parsedInv).inventory := by
  induction cards generalizing inv parsedInv with
  | nil => simp [selectUnparsedAll]
  | cons card rest ih =>
    rw [selectUnparsedAll]
    rcases hp : parse_and_cache_card wants locked used card parsedInv with ⟨pc?, p'⟩
    have hnd' : (remove_card inv card).2.Nodup := remove_card_nodup card hnd
    have hgone : card ∉ (remove_card inv card).2 := remove_card_not_mem hnd
    have hsub := selectUnparsedAll_inventory_sublist wants locked used nt rest
      (remove_card inv card).2 p'
    cases pc? with
    | none =>
      simp only [hp]
      intro c hc
      rcases List.mem_cons.mp hc with rfl | hc
      · exact fun hmem => hgone (hsub.subset hmem)
      · exact ih (remove_card inv card).2 p' hnd' c hc
    | some pc =>
      by_cases hge : normalize_wanters pc.wanters_count ≥ nt
      · simp only [hp, if_pos hge]
        intro c hc
        rcases List.mem_cons.mp hc with rfl | hc
        · exact hgone
        · simp at hc
      · simp only [hp, if_neg hge]
        intro c hc
        rcases List.mem_cons.mp hc with rfl | hc
        · exact fun hmem => hgone (hsub.subset hmem)
        · exact ih (remove_card inv card).2 p' hnd' c hc

/-- In the exhaustive phase, a scan that selects nothing has examined
every available card. -/
theorem selectUnparsedAll_none_examined_all (wants : Nat → Int)
    (locked used : List Nat) (nt : Nat) (cards : List RawCard)
    (inv : List RawCard) (parsedInv : ParsedInv)
    (h : (selectUnparsedAll wants locked used nt cards inv parsedInv).selected = none) :
    (selectUnparsedAll wants locked used nt cards inv parsedInv).examined = cards := by
  induction cards generalizing inv parsedInv with
  | nil => simp [selectUnparsedAll]
  | cons card rest ih =>
    rw [selectUnparsedAll] at h ⊢
    rcases hp : parse_and_cache_card wants locked used card parsedInv with ⟨pc?, p'⟩
    cases pc? with
    | none =>
      simp only [hp] at h ⊢
      exact congrArg (card :: ·) (ih (remove_card inv card).2 p' h)
    | some pc =>
      by_cases hge : normalize_wanters pc.wanters_count ≥ nt
      · simp [hp, hge] at h
      · simp only [hp, if_neg hge] at h ⊢
        exact congrArg (card :: ·) (ih (remove_card inv card).2 p' h)

/-- The bounded phase of the unparsed scan only shrinks the persisted
inventory file. -/
theorem selectUnparsedBudget_inventory_sublist (wants : Nat → Int)
    (locked used : List Nat) (nt : Nat) (budget : Nat) (cards : List RawCard)
    (inv : List RawCard) (parsedInv : ParsedInv) :
    (selectUnparsedBudget wants locked used nt budget cards inv parsedInv).inventory.Sublist inv := by
  induction budget generalizing cards inv parsedInv with
  | zero => exact selectUnparsedAll_inventory_sublist wants locked used nt cards inv parsedInv
  | succ b ih =>
    cases cards with
    | nil => simp [selectUnparsedBudget]
    | cons card rest =>
      rw [selectUnparsedBudget]
      rcases hp : parse_and_cache_card wants locked used card parsedInv with ⟨pc?, p'⟩
      cases pc? with
      | none =>
        simpa [hp] using (ih rest (remove_card inv card).2 p').trans (remove_card_sublist inv card)
      | some pc =>
        by_cases hge : normalize_wanters pc.wanters_count ≥ nt
        · simpa [hp, hge] using remove_card_sublist inv card
        · simpa [hp, hge] using (ih rest (remove_card inv card).2 p').trans (remove_card_sublist inv card)

/-- In the bounded phase, on a duplicate-free file every examined card is
absent from the final persisted inventory. -/
theorem selectUnparsedBudget_examined_removed (wants : Nat → Int)
    (locked used : List Nat) (nt : Nat) (budget : Nat) (cards : List RawCard)
    (inv : List RawCard) (parsedInv : ParsedInv) (hnd : inv.Nodup) :
    ∀ c ∈ (selectUnparsedBudget wants locked used nt budget cards inv parsedInv).examined,
      c ∉ (selectUnparsedBudget wants locked used nt budget cards inv parsedInv).inventory := by
  induction budget generalizing cards inv parsedInv with
  | zero => exact selectUnparsedAll_examined_removed wants locked used nt cards inv parsedInv hnd
  | succ b ih =>
    cases cards with
    | nil => simp [selectUnparsedBudget]
    | cons card rest =>
      rw [selectUnparsedBudget]
      rcases hp : parse_and_cache_card wants locked used card parsedInv with ⟨pc?, p'⟩
      have hnd' : (remove_card inv card).2.Nodup := remove_card_nodup card hnd
      have hgone : card ∉ (remove_card inv card).2 := remove_card_not_mem hnd
      have hsub := selectUnparsedBudget_inventory_sublist wants locked used nt b rest
        (remove_card inv card).2 p'
      cases pc? with
      | none =>
        simp only [hp]
        intro c hc
        rcases List.mem_cons.mp hc with rfl | hc
        · exact fun hmem => hgone (hsub.subset hmem)
        · exact ih rest (remove_card inv card).2 p' hnd' c hc
      | some pc =>
        by_cases hge : normalize_wanters pc.wanters_count ≥ nt
        · simp only [hp, if_pos hge]
          intro c hc
          rcases List.mem_cons.mp hc with rfl | hc
          · exact hgone
          · simp at hc
        · simp only [hp, if_neg hge]
          intro c hc
          rcases List.mem_cons.mp hc with rfl | hc
          · exact fun hmem => hgone (hsub.subset hmem)
          · exact ih rest (remove_card inv card).2 p' hnd' c hc

/-- In the bounded phase, a scan that selects nothing has examined every
available card. -/
theorem selectUnparsedBudget_none_examined_all (wants : Nat → Int)
    (locked used : List Nat) (nt : Nat) (budget : Nat) (cards : List RawCard)
    (inv : List RawCard) (parsedInv : ParsedInv)
    (h : (selectUnparsedBudget wants locked used nt budget cards inv parsedInv).selected = none) :
    (selectUnparsedBudget wants locked used nt budget cards inv parsedInv).examined = cards := by
  induction budget generalizing cards inv parsedInv with
  | zero => exact selectUnparsedAll_none_examined_all wants locked used nt cards inv parsedInv h
  | succ b ih =>
    cases cards with
    | nil => simp [selectUnparsedBudget]
    | cons card rest =>
      rw [selectUnparsedBudget] at h ⊢
      rcases hp : parse_and_cache_card wants locked used card parsedInv with ⟨pc?, p'⟩
      cases pc? with
      | none =>
        simp only [hp] at h ⊢
        exact congrArg (card :: ·) (ih rest (remove_card inv card).2 p' h)
      | some pc =>
        by_cases hge : normalize_wanters pc.wanters_count ≥ nt
        · simp [hp, hge] at h
        · simp only [hp, if_neg hge] at h ⊢
          exact congrArg (card :: ·) (ih rest (remove_card inv card).2 p' h)

/-! ## Helper lemmas about the retry loop -/

/-- Combined inductive invariant of the retry loop: the trace is bounded
by the remaining fuel; all but the last send failed; a successful run
clears the failed set and ends with the successful send; every send saw
the initial exclusion set; and every failed send's instance is part of
the exclusion set of every later send. -/
theorem retryGo_spec (chg : Nat → Bool)
    (selectF : Nat → List Nat → Option SelCard) (sendF : Nat → SelCard → Bool)
    (sendPresent : Bool) (fuel attempt ck : Nat) (exclude failed : List Nat) :
    ((retryGo chg selectF sendF sendPresent fuel attempt ck exclude failed).trace.length ≤ fuel) ∧
    (∀ i e, (retryGo chg selectF sendF sendPresent fuel attempt ck exclude failed).trace[i]? = some e →
      i + 1 < (retryGo chg selectF sendF sendPresent fuel attempt ck exclude failed).trace.length →
      e.sendOk = false) ∧
    ((retryGo chg selectF sendF sendPresent fuel attempt ck exclude failed).success = true →
      (retryGo chg selectF sendF sendPresent fuel attempt ck exclude failed).failedOut = [] ∧
      ∃ e, (retryGo chg selectF sendF sendPresent fuel attempt ck exclude failed).trace.getLast? = some e ∧
        e.sendOk = true) ∧
    (∀ e ∈ (retryGo chg selectF sendF sendPresent fuel attempt ck exclude failed).trace,
      exclude ⊆ e.excludeUsed) ∧
    (∀ (i j : Nat) (ei ej : AttemptRec), i < j →
      (retryGo chg selectF sendF sendPresent fuel attempt ck exclude failed).trace[i]? = some ei →
      (retryGo chg selectF sendF sendPresent fuel attempt ck exclude failed).trace[j]? = some ej →
      ei.sendOk = false → ei.card.instance_id ∈ ej.excludeUsed) := by
  induction fuel generalizing attempt ck exclude failed with
  | zero =>
    simp [retryGo]
  | succ f ih =>
    rw [retryGo]
    split
    · simp
    · split
      · simp
      · split
        · simp
        · split
          · simp
          · split
            · -- the send succeeded: a single successful trace entry
              rename_i card hsel hsp h1 hsend
              refine ⟨by simp, ?_, ?_, ?_, ?_⟩
              · intro i e hget hlt
                simp at hlt
              · intro _
                exact ⟨rfl, ⟨exclude, card, true⟩, rfl, rfl⟩
              · intro e he
                simp at he
                subst he
                exact fun a ha => ha
              · intro i j ei ej hij hgi hgj
                simp only [List.getElem?_eq_some_iff] at hgi hgj
                obtain ⟨hi, -⟩ := hgi
                obtain ⟨hj, -⟩ := hgj
                simp at hi hj
                omega
            · -- the send failed: recurse with the instance excluded
              rename_i card hsel hsp h1 hsend
              obtain ⟨ihA, ihB, ihC, ihD, ihE⟩ :=
                ih (attempt + 1) (ck + 2) (exclude.insert card.instance_id)
                  (failed.insert card.instance_id)
              refine ⟨?_, ?_, ?_, ?_, ?_⟩
              · simpa using Nat.succ_le_succ ihA
              · intro i e hget hlt
                cases i with
                | zero =>
                  simp only [List.getElem?_cons_zero, Option.some.injEq] at hget
                  rw [← hget]
                | succ i' =>
                  simp only [List.getElem?_cons_succ] at hget
                  simp only [List.length_cons] at hlt
                  exact ihB i' e hget (Nat.lt_of_succ_lt_succ hlt)
              · intro hs
                simp only at hs
                obtain ⟨hfe, e, hlast, hok⟩ := ihC hs
                refine ⟨hfe, e, ?_, hok⟩
                cases htr : (retryGo chg selectF sendF sendPresent f (attempt + 1) (ck + 2)
                    (exclude.insert card.instance_id) (failed.insert card.instance_id)).trace with
                | nil => rw [htr] at hlast; simp at hlast
                | cons a as =>
                  simp only [htr] at hlast ⊢
                  rw [List.getLast?_cons_cons]
                  exact hlast
              · intro e he
                rcases List.mem_cons.mp he with rfl | he
                · exact fun a ha => ha
                · exact fun a ha => ihD e he (List.mem_insert_of_mem ha)
              · intro i j ei ej hij hgi hgj hfail
                cases j with
                | zero => omega
                | succ j' =>
                  simp only [List.getElem?_cons_succ] at hgj
                  cases i with
                  | zero =>
                    simp only [List.getElem?_cons_zero, Option.some.injEq] at hgi
                    have hmem : ej ∈ (retryGo chg selectF sendF sendPresent f (attempt + 1) (ck + 2)
                        (exclude.insert card.instance_id) (failed.insert card.instance_id)).trace := by
                      obtain ⟨hj, hget⟩ := List.getElem?_eq_some_iff.mp hgj
                      exact hget ▸ List.getElem_mem hj
                    rw [← hgi]
                    exact ihD ej hmem (List.mem_insert_self card.instance_id exclude)
                  | succ i' =>
                    simp only [List.getElem?_cons_succ] at hgi
                    exact ihE i' j' ei ej (Nat.lt_of_succ_lt_succ hij) hgi hgj hfail

/-! ## Helper lemmas about the rate limiter -/

/-- Characterization of `wait_if_needed`: the returned queue is exactly
the first prune (the post-sleep prune never drops anything: the sleep
target is `oldest + window`, and the prune keeps entries not strictly
below `oldest`); the clock never goes backwards; and if the pruned queue
is full its head has exited the window by the time the call returns. -/
theorem wait_if_needed_spec (s : RLState) (now : ℚ) :
    (wait_if_needed s now).2.1 =
      cleanup_old_requests s.window_seconds
        (if s.paused_until > now then s.paused_until else now) s.requests ∧
    now ≤ (wait_if_needed s now).1 ∧
    (if s.paused_until > now then s.paused_until else now) ≤ (wait_if_needed s now).1 ∧
    ((cleanup_old_requests s.window_seconds
        (if s.paused_until > now then s.paused_until else now) s.requests).length
        ≥ s.max_requests →
      (cleanup_old_requests s.window_seconds
        (if s.paused_until > now then s.paused_until else now) s.requests ≠ []) →
      ∃ oldest rest,
        cleanup_old_requests s.window_seconds
          (if s.paused_until > now then s.paused_until else now) s.requests
          = oldest :: rest ∧
        oldest ≤ (wait_if_needed s now).1 - s.window_seconds) := by
  have hnowt1 : now ≤ (if s.paused_until > now then s.paused_until else now) := by
    split
    · next h => exact le_of_lt h
    · exact le_refl now
  unfold wait_if_needed
  simp only
  generalize hgen : (if s.paused_until > now then s.paused_until else now) = t1 at hnowt1 ⊢
  split
  · next hfullc =>
    split
    · next heq =>
      refine ⟨rfl, hnowt1, le_refl _, ?_⟩
      intro _ hne
      exact absurd heq hne
    · next oldest rest heq =>
      split
      · next hwait =>
        refine ⟨?_, ?_, ?_, ?_⟩
        · rw [heq]
          unfold cleanup_old_requests
          rw [List.dropWhile_cons]
          rw [if_neg (by simp)]
        · show now ≤ oldest + s.window_seconds
          linarith
        · show t1 ≤ oldest + s.window_seconds
          linarith
        · intro _ _
          refine ⟨oldest, rest, heq, ?_⟩
          show oldest ≤ oldest + s.window_seconds - s.window_seconds
          linarith
      · next hwait =>
        refine ⟨rfl, hnowt1, le_refl _, ?_⟩
        intro _ _
        exact ⟨oldest, rest, heq, by push_neg at hwait; linarith⟩
  · next hfullc =>
    refine ⟨rfl, hnowt1, le_refl _, ?_⟩
    intro hge _
    exact absurd hge hfullc

/-- After the first prune the queue has at most `max_requests` entries:
either the previous queue was within bounds, or it overflowed by one and
its expired head is pruned. -/
theorem cleanup_length_le (s : RLState) (f t1 : ℚ)
    (hlen : s.requests.length ≤ s.max_requests + 1)
    (hover : s.requests.length = s.max_requests + 1 →
      ∃ h tl, s.requests = h :: tl ∧ h ≤ f - s.window_seconds)
    (hf : f < t1) :
    (cleanup_old_requests s.window_seconds t1 s.requests).length ≤ s.max_requests := by
  rcases Nat.lt_or_ge s.requests.length (s.max_requests + 1) with hc | hc
  · calc (cleanup_old_requests s.window_seconds t1 s.requests).length
        ≤ s.requests.length := (List.dropWhile_sublist _).length_le
      _ ≤ s.max_requests := Nat.lt_succ_iff.mp hc
  · obtain ⟨h, tl, hq, hhd⟩ := hover (le_antisymm hlen hc)
    unfold cleanup_old_requests
    rw [hq, List.dropWhile_cons, if_pos (by simp; linarith)]
    calc (tl.dropWhile fun r => r < t1 - s.window_seconds).length
        ≤ tl.length := (List.dropWhile_sublist _).length_le
      _ ≤ s.max_requests := by
          have : tl.length + 1 = s.max_requests + 1 := by
            simpa [hq] using le_antisymm hlen hc
          omega

/-- Window counts add over list concatenation. -/
theorem countWindow_append (window t : ℚ) (l1 l2 : List ℚ) :
    countWindow window t (l1 ++ l2) =
      countWindow window t l1 + countWindow window t l2 := by
  simp [countWindow, List.filter_append]

/-- A window holds no more entries than the list. -/
theorem countWindow_le_length (window t : ℚ) (l : List ℚ) :
    countWindow window t l ≤ l.length :=
  List.length_filter_le _ l

/-- Entries at least a window old at instant `t` are not counted. -/
theorem countWindow_eq_zero (window t : ℚ) (l : List ℚ)
    (h : ∀ r ∈ l, r ≤ t - window) : countWindow window t l = 0 := by
  simp only [countWindow, List.length_eq_zero, List.filter_eq_nil_iff,
    Bool.and_eq_true, decide_eq_true_eq, not_and]
  intro a ha hlt
  exact absurd hlt (not_lt.mpr (h a ha))

/-- A head that already exited the window contributes nothing. -/
theorem countWindow_cons_expired (window t x : ℚ) (l : List ℚ)
    (h : x ≤ t - window) :
    countWindow window t (x :: l) = countWindow window t l := by
  simp only [countWindow, List.filter_cons]
  rw [if_neg]
  simp only [Bool.and_eq_true, decide_eq_true_eq, not_and]
  intro hlt
  exact absurd hlt (not_lt.mpr h)

/-- An instant outside the window contributes nothing. -/
theorem countWindow_singleton_out (window t x : ℚ)
    (h : ¬ (t - window < x ∧ x ≤ t)) : countWindow window t [x] = 0 := by
  simp only [countWindow, List.length_eq_zero, List.filter_eq_nil_iff,
    Bool.and_eq_true, decide_eq_true_eq, not_and, List.mem_singleton]
  rintro a rfl hlt hle
  exact h ⟨hlt, hle⟩

/-- The invariant step: one `wait_and_record` call at a clock reading
strictly after the previous finish preserves `RLInv` (with the recorded
stamp appended to the history) and finishes strictly later, without
touching the configured limits. -/
theorem wait_and_record_step (s : RLState) (hist : List ℚ) (f now : ℚ)
    (hN : 0 < s.max_requests) (hinv : RLInv s hist f) (hnow : f < now) :
    RLInv (wait_and_record s now).1 (hist ++ [(wait_and_record s now).2])
      (wait_and_record s now).2 ∧
    f < (wait_and_record s now).2 ∧
    (wait_and_record s now).1.max_requests = s.max_requests ∧
    (wait_and_record s now).1.window_seconds = s.window_seconds := by
  obtain ⟨⟨d, hhist, hd⟩, hlen, hover, hcount⟩ := hinv
  obtain ⟨hq2, hnowle, ht1le, hfull⟩ := wait_if_needed_spec s now
  set t1 := if s.paused_until > now then s.paused_until else now with ht1def
  set t := (wait_if_needed s now).1 with htdef
  set reqs1 := cleanup_old_requests s.window_seconds t1 s.requests with hreqs1def
  have hnowt1 : now ≤ t1 := by
    rw [ht1def]
    split
    · next h => exact le_of_lt h
    · exact le_refl now
  have hft1 : f < t1 := lt_of_lt_of_le hnow hnowt1
  have hft : f < t := lt_of_lt_of_le hft1 ht1le
  have hr1len : reqs1.length ≤ s.max_requests :=
    cleanup_length_le s f t1 hlen hover hft1
  have hwr2 : (wait_and_record s now).2 = t := rfl
  have hwr1req : (wait_and_record s now).1.requests = reqs1 ++ [t] := by
    show (wait_if_needed s now).2.1 ++ [(wait_if_needed s now).1] = reqs1 ++ [t]
    rw [hq2]
  have hwrN : (wait_and_record s now).1.max_requests = s.max_requests := rfl
  have hwrW : (wait_and_record s now).1.window_seconds = s.window_seconds := rfl
  have hsplit : s.requests =
      s.requests.takeWhile (fun r => r < t1 - s.window_seconds) ++ reqs1 := by
    rw [hreqs1def]
    exact (List.takeWhile_append_dropWhile _ _).symm
  have htw : ∀ r ∈ s.requests.takeWhile (fun r => r < t1 - s.window_seconds),
      r < t1 - s.window_seconds := by
    intro r hr
    simpa using List.mem_takeWhile_imp hr
  refine ⟨⟨⟨d ++ s.requests.takeWhile (fun r => r < t1 - s.window_seconds), ?_, ?_⟩,
      ?_, ?_, ?_⟩, ?_, hwrN, hwrW⟩
  · rw [hwr1req, hwr2, hhist]
    conv_lhs => rw [hsplit]
    simp [List.append_assoc]
  · intro r hr
    rw [hwrW, hwr2]
    rcases List.mem_append.mp hr with hr | hr
    · have := hd r hr
      linarith
    · have := htw r hr
      linarith
  · rw [hwr1req, hwrN]
    simp only [List.length_append, List.length_singleton]
    omega
  · rw [hwr1req, hwrN, hwrW, hwr2]
    intro hlen'
    have hr1N : reqs1.length = s.max_requests := by
      simp only [List.length_append, List.length_singleton] at hlen'
      omega
    obtain ⟨oldest, rest, heq, hle⟩ := hfull (by omega)
      (by
        intro hnil
        rw [hnil] at hr1N
        simp at hr1N
        omega)
    rw [heq]
    exact ⟨oldest, rest ++ [t], by simp, hle⟩
  · intro τ
    rw [hwrW, hwr2, hhist]
    conv_lhs => rw [hsplit]
    have hexp : countWindow s.window_seconds τ
        (d ++ (s.requests.takeWhile (fun r => r < t1 - s.window_seconds) ++ reqs1) ++ [t])
        = countWindow s.window_seconds τ d
          + countWindow s.window_seconds τ
              (s.requests.takeWhile (fun r => r < t1 - s.window_seconds))
          + countWindow s.window_seconds τ reqs1
          + countWindow s.window_seconds τ [t] := by
      rw [countWindow_append, countWindow_append, countWindow_append]
      omega
    rw [hexp]
    by_cases hin : τ - s.window_seconds < t ∧ t ≤ τ
    · have hcd : countWindow s.window_seconds τ d = 0 := by
        apply countWindow_eq_zero
        intro r hr
        have := hd r hr
        linarith [hin.2]
      have hctw : countWindow s.window_seconds τ
          (s.requests.takeWhile (fun r => r < t1 - s.window_seconds)) = 0 := by
        apply countWindow_eq_zero
        intro r hr
        have := htw r hr
        linarith [hin.2, ht1le]
      have hct : countWindow s.window_seconds τ [t] ≤ 1 :=
        countWindow_le_length _ _ _
      have hcr : countWindow s.window_seconds τ reqs1 ≤ s.max_requests - 1 := by
        rcases Nat.lt_or_ge reqs1.length s.max_requests with hc | hc
        · have := countWindow_le_length s.window_seconds τ reqs1
          omega
        · obtain ⟨oldest, rest, heq, hle⟩ := hfull hc
            (by
              intro hnil
              rw [hnil] at hc
              simp at hc
              omega)
          rw [heq, countWindow_cons_expired _ _ _ _ (by linarith [hin.2])]
          have := countWindow_le_length s.window_seconds τ rest
          have hlr : rest.length = s.max_requests - 1 := by
            have hlq : reqs1.length = (oldest :: rest).length := by rw [heq]
            simp at hlq
            omega
          omega
      omega
    · have hct0 : countWindow s.window_seconds τ [t] = 0 :=
        countWindow_singleton_out _ _ _ hin
      have := hcount τ
      rw [hhist] at this
      conv at this => rw [hsplit]
      rw [countWindow_append, countWindow_append] at this
      omega
  · rw [hwr2]
    exact hft

/-- Any sequence of sequential `wait_and_record` calls with strictly
advancing clock readings keeps every rolling window of the recorded
history within the configured limit. -/
theorem runLimiter_count (s : RLState) (hist : List ℚ) (f : ℚ)
    (times : List ℚ) (hN : 0 < s.max_requests) (hinv : RLInv s hist f)
    (hvalid : validTimes s f times = true) :
    ∀ τ, countWindow s.window_seconds τ (hist ++ (runLimiter s times).2)
      ≤ s.max_requests := by
  induction times generalizing s hist f with
  | nil =>
    intro τ
    simpa [runLimiter] using hinv.2.2.2 τ
  | cons now rest ih =>
    rw [validTimes, Bool.and_eq_true, decide_eq_true_eq] at hvalid
    obtain ⟨hlt, hvalid'⟩ := hvalid
    obtain ⟨hinv', hflt, hNeq, hWeq⟩ := wait_and_record_step s hist f now hN hinv hlt
    intro τ
    have hrec := ih (wait_and_record s now).1 (hist ++ [(wait_and_record s now).2])
      (wait_and_record s now).2 (by rw [hNeq]; exact hN) hinv' hvalid' τ
    rw [hWeq, hNeq] at hrec
    simp only [runLimiter]
    simpa [List.append_assoc] using hrec

/-! ## Claim C6 -/

/-- C6: starting from a fresh limiter, under any sequence of sequential
`wait_and_record` calls whose clock readings strictly advance past the
previous call's finish (`validTimes`), at every instant `τ` the number of
recorded request timestamps whose age lies within the rolling window of
`W` seconds (the half-open window `(τ - W, τ]`: an entry of age exactly
`W` has just exited, which is exactly the instant the full-queue sleep
waits for) never exceeds `N = max_requests`. -/
theorem c6_rate_limiter_window_bound (N : Nat) (W p0 f0 : ℚ)
    (times : List ℚ) (hN : 0 < N)
    (hvalid : validTimes ⟨N, W, [], p0⟩ f0 times = true) :
    ∀ τ : ℚ, countWindow W τ (runLimiter ⟨N, W, [], p0⟩ times).2 ≤ N := by
  have hinv : RLInv ⟨N, W, [], p0⟩ [] f0 := by
    refine ⟨⟨[], by simp, by simp⟩, by simp, ?_, ?_⟩
    · intro h
      simp at h
    · intro τ
      simp [countWindow]
  have := runLimiter_count ⟨N, W, [], p0⟩ [] f0 times hN hinv hvalid
  simpa using this

/-- Witness for C6 with `N = 1`, `W = 2`: calls at clock readings 1 and 2
(the second call sleeps until instant 3, when the first stamp exits the
window), checked at instant 3. -/
theorem c6_rate_limiter_window_bound_witness :
    countWindow 2 3 (runLimiter ⟨1, 2, [], 0⟩ [1, 2]).2 ≤ 1 :=
  c6_rate_limiter_window_bound 1 2 0 0 [1, 2] (by decide) (by decide) 3

/-! ## Claim C8 -/

/-- C8: `normalize_wanters` maps every demand value `d ≤ L` (the
low-demand threshold 5) to `0`, and returns `d` unchanged for every
`d > L`; hence any two demands at or below the threshold normalize to the
same bucket `0`. -/
theorem c8_normalize_thresholds (d1 d2 d : Nat)
    (h1 : d1 ≤ LOW_WANTERS_THRESHOLD) (h2 : d2 ≤ LOW_WANTERS_THRESHOLD)
    (hd : d > LOW_WANTERS_THRESHOLD) :
    normalize_wanters d1 = 0 ∧ normalize_wanters d2 = 0 ∧
    normalize_wanters d1 = normalize_wanters d2 ∧
    normalize_wanters d = d := by
  simp [normalize_wanters, h1, h2]
  omega

/-- Witness for C8 at `d1 = 1`, `d2 = 5`, `d = 6`. -/
theorem c8_normalize_thresholds_witness :
    normalize_wanters 1 = 0 ∧ normalize_wanters 5 = 0 ∧
    normalize_wanters 1 = normalize_wanters 5 ∧
    normalize_wanters 6 = 6 :=
  c8_normalize_thresholds 1 5 6 (by decide) (by decide) (by decide)

/-! ## Claim C3 -/

/-- C3: `create_trade_direct_api` returns `True` exactly when the card
was not already locked and the remote outcome is a confirmed success
(a response that is neither 429 nor 422 and passes
`_is_success_response`); the locked-card set gains `my_instance_id`
exactly on that `True` result.  In particular a 422 "already in a trade"
response and a caught network error both return `False` with the locked
set unchanged — no exception escapes, the function is total. -/
theorem c3_lock_iff_confirmed_success (locked : List Nat)
    (my_instance_id : Nat) (o : ApiOutcome) :
    ((create_trade_direct_api locked my_instance_id o).1 = true ↔
      my_instance_id ∉ locked ∧ confirmedSuccess o = true) ∧
    ((create_trade_direct_api locked my_instance_id o).2
      = if (create_trade_direct_api locked my_instance_id o).1
        then my_instance_id :: locked else locked) ∧
    (∀ r : HttpResponse, o = ApiOutcome.resp r → r.status_code = 422 →
      create_trade_direct_api locked my_instance_id o = (false, locked)) ∧
    (o = ApiOutcome.netError →
      create_trade_direct_api locked my_instance_id o = (false, locked)) := by
  refine ⟨?_, ?_, ?_, ?_⟩
  · cases o with
    | netError => simp [create_trade_direct_api, confirmedSuccess]
    | resp r =>
      by_cases hl : my_instance_id ∈ locked
      · simp [create_trade_direct_api, hl]
      · simp only [create_trade_direct_api, confirmedSuccess, if_neg hl]
        split_ifs with h1 h2 h3 <;> simp_all
  · cases o with
    | netError => simp [create_trade_direct_api]
    | resp r =>
      by_cases hl : my_instance_id ∈ locked
      · simp [create_trade_direct_api, hl]
      · simp only [create_trade_direct_api, if_neg hl]
        split_ifs <;> simp_all
  · rintro r rfl h422
    by_cases hl : my_instance_id ∈ locked
    · simp [create_trade_direct_api, hl]
    · by_cases h429 : r.status_code = 429
      · simp [create_trade_direct_api, hl, h429]
      · simp [create_trade_direct_api, hl, h429, h422]
  · rintro rfl
    by_cases hl : my_instance_id ∈ locked <;>
      simp [create_trade_direct_api, hl]

/-- Witness for C3: a 422 response and a network error leave the empty
locked set unchanged with result `False`; a plain 200 response locks
card 5. -/
theorem c3_lock_iff_confirmed_success_witness :
    create_trade_direct_api [] 5
        (ApiOutcome.resp ⟨422, false, false, false, false, false, false, false, false⟩)
      = (false, []) ∧
    create_trade_direct_api [] 5 ApiOutcome.netError = (false, []) ∧
    (create_trade_direct_api [] 5
        (ApiOutcome.resp ⟨200, false, false, false, false, false, false, false, false⟩)).1
      = true :=
  ⟨(c3_lock_iff_confirmed_success [] 5 _).2.2.1 _ rfl rfl,
   (c3_lock_iff_confirmed_success [] 5 _).2.2.2 rfl,
   (c3_lock_iff_confirmed_success [] 5 _).1.mpr ⟨by decide, by decide⟩⟩

/-! ## Claim C1 -/

/-- C1 (failing input): for a trade of id 1 losing card 7, with card 7
present in local inventory, the observed status sequence
`None -> completed -> cancelled` does NOT yield net-zero inventory
change.  The `completed` pass removes the card from the inventory file,
but the `cancelled` pass only discards the id from the traded-away set
(while logging that the card was returned): the inventory file stays
empty, a net change of minus one card. -/
theorem c1_cancelled_does_not_restore_inventory :
    (check_and_remove_traded_cards
        ⟨[], [], [⟨7, "a", "S", 70⟩]⟩
        [⟨1, TStatus.completed, [7], []⟩]).1.inventory = [] ∧
    (check_and_remove_traded_cards
        ⟨[], [], [⟨7, "a", "S", 70⟩]⟩
        [⟨1, TStatus.completed, [7], []⟩]).1.traded_away = [7] ∧
    (check_and_remove_traded_cards
        (check_and_remove_traded_cards
          ⟨[], [], [⟨7, "a", "S", 70⟩]⟩
          [⟨1, TStatus.completed, [7], []⟩]).1
        [⟨1, TStatus.cancelled, [7], []⟩]).1.inventory = [] ∧
    (check_and_remove_traded_cards
        (check_and_remove_traded_cards
          ⟨[], [], [⟨7, "a", "S", 70⟩]⟩
          [⟨1, TStatus.completed, [7], []⟩]).1
        [⟨1, TStatus.cancelled, [7], []⟩]).1.traded_away = [] := by
  decide

/-! ## Claim C4 -/

/-- Dict assignment followed by lookup of the same key yields the
assigned status. -/
theorem lookupStatus_setStatus (l : List (Nat × TStatus)) (tid : Nat)
    (st : TStatus) : lookupStatus (setStatus l tid st) tid = some st := by
  induction l with
  | nil => simp [setStatus, lookupStatus]
  | cons p rest ih =>
    by_cases h : p.1 = tid
    · simp [setStatus, lookupStatus, h]
    · simp [setStatus, lookupStatus, h, ih]

/-- C4: a first reconciliation pass observing `completed` for a fresh
trade id removes the lost card from the inventory file exactly once (the
inventory becomes exactly the first-match removal); a second pass
observing the same `completed` status for the same trade id mutates
neither the inventory, nor the traded-away set, nor the status table, and
reports zero removals. -/
theorem c4_completed_pass_idempotent (s : HistState) (tid c : Nat)
    (h1 : lookupStatus s.trade_statuses tid = none)
    (h2 : c ∉ s.traded_away) :
    (check_and_remove_traded_cards s [⟨tid, TStatus.completed, [c], []⟩]).1.inventory
      = (removeCardFromInventory s.inventory c).2 ∧
    check_and_remove_traded_cards
        (check_and_remove_traded_cards s [⟨tid, TStatus.completed, [c], []⟩]).1
        [⟨tid, TStatus.completed, [c], []⟩]
      = ((check_and_remove_traded_cards s [⟨tid, TStatus.completed, [c], []⟩]).1, 0) := by
  have hfirst : check_and_remove_traded_cards s [⟨tid, TStatus.completed, [c], []⟩]
      = ((processTrade s ⟨tid, TStatus.completed, [c], []⟩).1,
         (processTrade s ⟨tid, TStatus.completed, [c], []⟩).2.1) := by
    simp [check_and_remove_traded_cards]
  have hpt : processTrade s ⟨tid, TStatus.completed, [c], []⟩
      = (⟨setStatus s.trade_statuses tid TStatus.completed,
          (processLostCompleted [c] s.inventory s.traded_away 0).2.1,
          (processLostCompleted [c] s.inventory s.traded_away 0).1⟩,
         (processLostCompleted [c] s.inventory s.traded_away 0).2.2, 0) := by
    simp [processTrade, h1]
  constructor
  · rw [hfirst, hpt]
    simp only [processLostCompleted, h2, if_neg]
    cases hrc : removeCardFromInventory s.inventory c with
    | mk ok inv' =>
      cases ok <;> simp [processLostCompleted, hrc]
  · rw [hfirst, hpt]
    have hlk : lookupStatus (setStatus s.trade_statuses tid TStatus.completed) tid
        = some TStatus.completed := lookupStatus_setStatus _ _ _
    simp [check_and_remove_traded_cards, processTrade, hlk]

/-! ## Claim C2 -/

/-- C2 (counterexample): the claim fails on the unclassified (unparsed)
scan.  With exclusion set `{100}`, an inventory holding one rank-"S" card
of instance id 100 (demand 0), empty parse cache and target demand 0,
`select_best_card` returns exactly that excluded instance:
`select_from_unparsed` is invoked without the exclusion set and
`parse_and_cache_card` checks only the locked/used sets. -/
theorem c2_unparsed_path_ignores_exclusion :
    (select_best_card (fun _ => 0) [] [] ⟨[⟨1, "a", "S", 100⟩], []⟩
        "S" 0 [100] 0).1.map (fun c => c.instance_id) = some 100 ∧
    100 ∈ [100] := by
  constructor
  · rfl
  · decide

/-- C2 (amended): the exclusion filter is applied on the classified
(parsed) scan only — `select_from_parsed` never returns an item whose
`instance_id` is in `exclude_instances`; the unclassified scan does not
receive the exclusion set and can return an excluded instance. -/
theorem c2_parsed_scan_respects_exclusion (locked used : List Nat)
    (parsedInv : ParsedInv) (target_rank : String) (target_wanters : Nat)
    (exclude_instances : List Nat) (rngIdx : Nat) (c : ParsedCard)
    (h : select_from_parsed locked used parsedInv target_rank target_wanters
          exclude_instances rngIdx = some c) :
    c.instance_id ∉ exclude_instances := by
  have hm := select_from_parsed_mem_eligible h
  have he := (List.mem_filter.mp hm).2
  simp only [parsedEligible, Bool.and_eq_true, decide_eq_true_eq] at he
  exact he.2.1

/-- Witness for C2's amended theorem: a parsed-scan selection at a
concrete cache returns instance 50, which is indeed outside the exclusion
set `{7}`. -/
theorem c2_parsed_scan_respects_exclusion_witness :
    (⟨1, "n", "S", 0, 50, true⟩ : ParsedCard).instance_id ∉ [7] :=
  c2_parsed_scan_respects_exclusion [] [] [⟨1, "n", "S", 0, 50, true⟩]
    "S" 0 [7] 0 _ (by rfl)

/-! ## Claim C9 -/

/-- C9: in the classified (parsed) scan, whenever some eligible candidate
has normalized demand at least the normalized target, the selection
returns such a candidate (never one strictly below); and when no such
candidate exists, the returned candidate is the closest below: eligible,
strictly below target, and of maximal normalized demand among the
eligible. -/
theorem c9_parsed_priority (locked used : List Nat) (parsedInv : ParsedInv)
    (target_rank : String) (target_wanters : Nat)
    (exclude_instances : List Nat) (rngIdx : Nat) :
    ((∃ c ∈ parsedInv.filter (parsedEligible locked used exclude_instances target_rank),
        normalize_wanters c.wanters_count ≥ normalize_wanters target_wanters) →
      ∃ c, select_from_parsed locked used parsedInv target_rank target_wanters
            exclude_instances rngIdx = some c ∧
        normalize_wanters c.wanters_count ≥ normalize_wanters target_wanters) ∧
    (∀ c, select_from_parsed locked used parsedInv target_rank target_wanters
            exclude_instances rngIdx = some c →
      (¬ ∃ c' ∈ parsedInv.filter (parsedEligible locked used exclude_instances target_rank),
          normalize_wanters c'.wanters_count ≥ normalize_wanters target_wanters) →
      normalize_wanters c.wanters_count < normalize_wanters target_wanters ∧
      ∀ c' ∈ parsedInv.filter (parsedEligible locked used exclude_instances target_rank),
        normalize_wanters c'.wanters_count ≤ normalize_wanters c.wanters_count) := by
  constructor
  · rintro ⟨c0, hc0, hge0⟩
    have hmem : c0 ∈ (parsedInv.filter
        (parsedEligible locked used exclude_instances target_rank)).filter
        (fun x => decide (normalize_wanters x.wanters_count ≥
          normalize_wanters target_wanters)) :=
      List.mem_filter.mpr ⟨hc0, by simpa using hge0⟩
    have hne : ((parsedInv.filter
        (parsedEligible locked used exclude_instances target_rank)).filter
        (fun x => decide (normalize_wanters x.wanters_count ≥
          normalize_wanters target_wanters))).length ≠ 0 :=
      List.length_pos_iff_ne_nil.mpr (List.ne_nil_of_mem hmem) |>.ne'
    have hlt : rngIdx % ((parsedInv.filter
        (parsedEligible locked used exclude_instances target_rank)).filter
        (fun x => decide (normalize_wanters x.wanters_count ≥
          normalize_wanters target_wanters))).length < ((parsedInv.filter
        (parsedEligible locked used exclude_instances target_rank)).filter
        (fun x => decide (normalize_wanters x.wanters_count ≥
          normalize_wanters target_wanters))).length :=
      Nat.mod_lt _ (Nat.pos_of_ne_zero hne)
    refine ⟨((parsedInv.filter
        (parsedEligible locked used exclude_instances target_rank)).filter
        (fun x => decide (normalize_wanters x.wanters_count ≥
          normalize_wanters target_wanters)))[rngIdx % ((parsedInv.filter
        (parsedEligible locked used exclude_instances target_rank)).filter
        (fun x => decide (normalize_wanters x.wanters_count ≥
          normalize_wanters target_wanters))).length], ?_, ?_⟩
    · unfold select_from_parsed
      dsimp only
      rw [List.getElem?_eq_getElem hlt]
    · have := List.getElem_mem hlt
      have := (List.mem_filter.mp this).2
      simpa using this
  · intro c hsel hnone
    have hnotin : ∀ c' ∈ parsedInv.filter
        (parsedEligible locked used exclude_instances target_rank),
        normalize_wanters c'.wanters_count < normalize_wanters target_wanters := by
      intro c' hc'
      by_contra hge
      exact hnone ⟨c', hc', by omega⟩
    unfold select_from_parsed at hsel
    dsimp only at hsel
    split at hsel
    next c' heq =>
      obtain ⟨hlt, hget⟩ := List.getElem?_eq_some_iff.mp heq
      have hm := hget ▸ List.getElem_mem hlt
      have := (List.mem_filter.mp hm)
      exact absurd (hnotin c' this.1) (by simpa using this.2)
    next heq =>
      have hmem := firstMaxBy_mem hsel
      have hmax := firstMaxBy_max hsel
      have hcel := (List.mem_filter.mp hmem).1
      refine ⟨hnotin c hcel, ?_⟩
      intro c' hc'
      have hbelow : normalize_wanters c'.wanters_count <
          normalize_wanters target_wanters := hnotin c' hc'
      have : c' ∈ (parsedInv.filter
          (parsedEligible locked used exclude_instances target_rank)).filter
          (fun x => decide (¬ normalize_wanters x.wanters_count ≥
            normalize_wanters target_wanters)) :=
        List.mem_filter.mpr ⟨hc', by simp; omega⟩
      exact hmax c' this

/-- Witness for C9: cache with demands 2 and 7 at target 6 (normalized
target 6): an eligible candidate with normalized demand ≥ 6 exists, and
the selection indeed returns one at least 6. -/
theorem c9_parsed_priority_witness :
    (∃ c ∈ ([⟨1, "lo", "S", 2, 10, true⟩, ⟨2, "hi", "S", 7, 11, true⟩] :
        ParsedInv).filter (parsedEligible [] [] [] "S"),
      normalize_wanters c.wanters_count ≥ normalize_wanters 6) ∧
    (∃ c, select_from_parsed [] [] [⟨1, "lo", "S", 2, 10, true⟩,
        ⟨2, "hi", "S", 7, 11, true⟩] "S" 6 [] 0 = some c ∧
      normalize_wanters c.wanters_count ≥ normalize_wanters 6) := by
  have hex : ∃ c ∈ ([⟨1, "lo", "S", 2, 10, true⟩, ⟨2, "hi", "S", 7, 11, true⟩] :
      ParsedInv).filter (parsedEligible [] [] [] "S"),
      normalize_wanters c.wanters_count ≥ normalize_wanters 6 := by
    refine ⟨⟨2, "hi", "S", 7, 11, true⟩, ?_, by decide⟩
    simp [parsedEligible, is_card_available, MAX_WANTERS_ALLOWED, MAX_WANTERS_FOR_TRADE]
  exact ⟨hex, (c9_parsed_priority [] [] _ "S" 6 [] 0).1 hex⟩

/-! ## Claim C5 -/

/-- C5: within one cycle, `process_owner_with_retry` invokes the
trade-send function at most `MAX_RETRY_ATTEMPTS = 3` times (the trace
records exactly the send invocations), even if every attempt fails; every
failed attempt's `instance_id` is in the exclusion set used by each later
attempt; only the last send can succeed (the loop stops at the first
success); and a successful run clears the cycle's failed-attempts set and
returns success. -/
theorem c5_retry_bounded_and_exclusion (blacklisted : Bool) (chg : Nat → Bool)
    (selectF : Nat → List Nat → Option SelCard) (sendF : Nat → SelCard → Bool)
    (sendPresent : Bool) (failed : List Nat) :
    ((process_owner_with_retry blacklisted chg selectF sendF sendPresent failed).trace.length
        ≤ MAX_RETRY_ATTEMPTS) ∧
    (∀ (i j : Nat) (ei ej : AttemptRec), i < j →
      (process_owner_with_retry blacklisted chg selectF sendF sendPresent failed).trace[i]? = some ei →
      (process_owner_with_retry blacklisted chg selectF sendF sendPresent failed).trace[j]? = some ej →
      ei.sendOk = false → ei.card.instance_id ∈ ej.excludeUsed) ∧
    (∀ (i : Nat) (e : AttemptRec),
      (process_owner_with_retry blacklisted chg selectF sendF sendPresent failed).trace[i]? = some e →
      i + 1 < (process_owner_with_retry blacklisted chg selectF sendF sendPresent failed).trace.length →
      e.sendOk = false) ∧
    ((process_owner_with_retry blacklisted chg selectF sendF sendPresent failed).success = true →
      (process_owner_with_retry blacklisted chg selectF sendF sendPresent failed).failedOut = [] ∧
      ∃ e, (process_owner_with_retry blacklisted chg selectF sendF sendPresent failed).trace.getLast?
            = some e ∧ e.sendOk = true) := by
  unfold process_owner_with_retry
  split
  · simp
  · split
    · simp
    · obtain ⟨hA, hB, hC, hD, hE⟩ :=
        retryGo_spec chg selectF sendF sendPresent MAX_RETRY_ATTEMPTS 1 1 failed failed
      exact ⟨hA, hE, hB, hC⟩

/-- Witness for C5: a run where every send fails sends exactly
`MAX_RETRY_ATTEMPTS` trades, and the instance that failed in attempt 1 is
in the exclusion set used by attempt 2. -/
theorem c5_retry_bounded_and_exclusion_witness :
    (process_owner_with_retry false (fun _ => false) (fun _ _ => some ⟨"c", 0, 9⟩)
      (fun _ _ => false) true []).trace.length ≤ MAX_RETRY_ATTEMPTS ∧
    (9 : Nat) ∈ (⟨[9], ⟨"c", 0, 9⟩, false⟩ : AttemptRec).excludeUsed :=
  ⟨(c5_retry_bounded_and_exclusion false (fun _ => false) (fun _ _ => some ⟨"c", 0, 9⟩)
      (fun _ _ => false) true []).1,
   (c5_retry_bounded_and_exclusion false (fun _ => false) (fun _ _ => some ⟨"c", 0, 9⟩)
      (fun _ _ => false) true []).2.1 0 1 ⟨[], ⟨"c", 0, 9⟩, false⟩ ⟨[9], ⟨"c", 0, 9⟩, false⟩
      (by decide) (by rfl) (by rfl) rfl⟩

/-! ## Claim C7 -/

/-- C7: when the remote statistics fetch fails (non-200, network error or
parse error, all modelled by `FetchOutcome.fail`) and `get_stats` takes
the fetch path (forced refresh or empty cache), it returns the permissive
snapshot: zero used, `donations_left = donations_max =
MAX_DAILY_DONATIONS` and `replacements_left = replacements_max =
MAX_DAILY_REPLACEMENTS`, while `time_until_reset` is still the local
countdown to the next UTC+3 midnight (positive, at most a day, and
landing exactly on a day boundary of the shifted clock); and any
successful fetch carries the very same locally computed countdown. -/
theorem c7_fetch_failure_permissive (cached : Option Stats)
    (force_refresh : Bool) (utcNow : Nat)
    (h : force_refresh = true ∨ cached = none) :
    get_stats cached force_refresh FetchOutcome.fail utcNow =
      { donations_used := 0, donations_max := MAX_DAILY_DONATIONS,
        replacements_used := 0, replacements_max := MAX_DAILY_REPLACEMENTS,
        donations_left := (MAX_DAILY_DONATIONS : Int),
        replacements_left := (MAX_DAILY_REPLACEMENTS : Int),
        time_until_reset := seconds_until_reset utcNow } ∧
    0 < seconds_until_reset utcNow ∧
    seconds_until_reset utcNow ≤ 86400 ∧
    (utcNow + TIMEZONE_OFFSET * 3600 + seconds_until_reset utcNow) % 86400 = 0 ∧
    (∀ (o : FetchOutcome) (st : Stats),
      fetch_stats_from_page o utcNow = some st →
      st.time_until_reset = seconds_until_reset utcNow) := by
  have hlt : (utcNow + TIMEZONE_OFFSET * 3600) % 86400 < 86400 :=
    Nat.mod_lt _ (by norm_num)
  refine ⟨?_, ?_, ?_, ?_, ?_⟩
  · rcases h with rfl | rfl
    · cases cached <;> rfl
    · cases force_refresh <;> rfl
  · unfold seconds_until_reset
    omega
  · unfold seconds_until_reset
    omega
  · have hdm := Nat.div_add_mod (utcNow + TIMEZONE_OFFSET * 3600) 86400
    have hrw : utcNow + TIMEZONE_OFFSET * 3600 + seconds_until_reset utcNow
        = 86400 * ((utcNow + TIMEZONE_OFFSET * 3600) / 86400 + 1) := by
      unfold seconds_until_reset
      omega
    rw [hrw]
    exact Nat.mul_mod_right _ _
  · intro o st hst
    cases o with
    | fail => simp [fetch_stats_from_page] at hst
    | ok repl don =>
      simp only [fetch_stats_from_page, Option.some.injEq] at hst
      rw [← hst]

/-- Witness for C7 at `utcNow = 0` with empty cache and no forced
refresh: the permissive snapshot is returned and the countdown is
positive. -/
theorem c7_fetch_failure_permissive_witness :
    get_stats none false FetchOutcome.fail 0 =
      { donations_used := 0, donations_max := MAX_DAILY_DONATIONS,
        replacements_used := 0, replacements_max := MAX_DAILY_REPLACEMENTS,
        donations_left := (MAX_DAILY_DONATIONS : Int),
        replacements_left := (MAX_DAILY_REPLACEMENTS : Int),
        time_until_reset := seconds_until_reset 0 } ∧
    0 < seconds_until_reset 0 :=
  ⟨(c7_fetch_failure_permissive none false 0 (Or.inr rfl)).1,
   (c7_fetch_failure_permissive none false 0 (Or.inr rfl)).2.1⟩

/-! ## Claim C10 -/

/-- C10: the unparsed scan of `select_best_card` destructively consumes
the persisted unparsed-inventory store.  On a duplicate-free inventory
file, every card examined during the scan is absent from the final
persisted file (each was handed to `InventoryManager.remove_card`, which
rewrites and saves the file, even when the card is rejected); and when the
scan returns no selection, every available card has been examined — so it
can survive only as an entry of the parsed cache. -/
theorem c10_unparsed_scan_consumes_store (wants : Nat → Int)
    (locked used : List Nat) (available_cards : List RawCard)
    (target_wanters : Nat) (inv : List RawCard) (parsedInv : ParsedInv)
    (max_attempts : Nat) (hnd : inv.Nodup) :
    (∀ c ∈ (select_from_unparsed wants locked used available_cards
        target_wanters inv parsedInv max_attempts).examined,
      c ∉ (select_from_unparsed wants locked used available_cards
        target_wanters inv parsedInv max_attempts).inventory) ∧
    ((select_from_unparsed wants locked used available_cards
        target_wanters inv parsedInv max_attempts).selected = none →
      (select_from_unparsed wants locked used available_cards
        target_wanters inv parsedInv max_attempts).examined = available_cards) := by
  refine ⟨?_, ?_⟩
  · exact selectUnparsedBudget_examined_removed wants locked used
      (normalize_wanters target_wanters) max_attempts available_cards inv parsedInv hnd
  · exact selectUnparsedBudget_none_examined_all wants locked used
      (normalize_wanters target_wanters) max_attempts available_cards inv parsedInv

/-- Witness for C10: a one-card file whose card is rejected by the demand
oracle (`count_wants` error, -1): the selection returns nothing, yet the
examined card is gone from the persisted file. -/
theorem c10_unparsed_scan_consumes_store_witness :
    (∀ c ∈ (select_from_unparsed (fun _ => -1) [] [] [⟨1, "a", "S", 100⟩]
        0 [⟨1, "a", "S", 100⟩] [] 50).examined,
      c ∉ (select_from_unparsed (fun _ => -1) [] [] [⟨1, "a", "S", 100⟩]
        0 [⟨1, "a", "S", 100⟩] [] 50).inventory) ∧
    ((select_from_unparsed (fun _ => -1) [] [] [⟨1, "a", "S", 100⟩]
        0 [⟨1, "a", "S", 100⟩] [] 50).selected = none →
      (select_from_unparsed (fun _ => -1) [] [] [⟨1, "a", "S", 100⟩]
        0 [⟨1, "a", "S", 100⟩] [] 50).examined = [⟨1, "a", "S", 100⟩]) :=
  c10_unparsed_scan_consumes_store (fun _ => -1) [] [] [⟨1, "a", "S", 100⟩]
    0 [⟨1, "a", "S", 100⟩] [] 50 (by simp)

/-- Witness for C4: fresh state holding only card 7, trade id 1 completes
losing card 7. -/
theorem c4_completed_pass_idempotent_witness :
    (check_and_remove_traded_cards
        ⟨[], [], [⟨7, "a", "S", 70⟩]⟩
        [⟨1, TStatus.completed, [7], []⟩]).1.inventory
      = (removeCardFromInventory [⟨7, "a", "S", 70⟩] 7).2 ∧
    check_and_remove_traded_cards
        (check_and_remove_traded_cards
          ⟨[], [], [⟨7, "a", "S", 70⟩]⟩
          [⟨1, TStatus.completed, [7], []⟩]).1
        [⟨1, TStatus.completed, [7], []⟩]
      = ((check_and_remove_traded_cards
          ⟨[], [], [⟨7, "a", "S", 70⟩]⟩
          [⟨1, TStatus.completed, [7], []⟩]).1, 0) :=
  c4_completed_pass_idempotent ⟨[], [], [⟨7, "a", "S", 70⟩]⟩ 1 7
    (by decide) (by decide)

end Sredizeme
